import Mathlib

/-!
Shallow embedding of the IPv4 route-summary program (`src/main.rs`).

Addresses and masks are modelled as `Nat` values; 32-bit machine arithmetic
is made explicit with `% 2^32` where the Rust code can wrap.  Strings are
modelled as `List Char`.  Rust functions returning `Option` become `Option`;
the two places where the Rust code can fail to return normally (a `panic!`
in the integer branch of `IPv4Mask::parse`, and two loops that never exit)
are modelled explicitly: loops are written with a fuel parameter large
enough to cover every normal exit, and results distinguish a normal value
from a panic and from a loop that provably never exits.
-/

set_option autoImplicit false

/-- Value of a decimal digit character, `none` for a non-digit.  Models the
per-character acceptance of Rust's unsigned `from_str`. -/
def digitVal (c : Char) : Option Nat :=
  if '0' ≤ c ∧ c ≤ '9' then some (c.toNat - '0'.toNat) else none

/-- Accumulate the decimal value of a character list; `none` as soon as a
non-digit appears.  Rust accumulates with an overflow check against the
integer type's maximum; computing the exact value and comparing against the
maximum afterwards (see `parseUInt`) is observably equivalent. -/
def parseDigits : List Char → Nat → Option Nat
  | [], acc => some acc
  | c :: rest, acc =>
    match digitVal c with
    | none => none
    | some d => parseDigits rest (acc * 10 + d)

/-- The characters of a numeric literal after stripping one optional
leading `'+'`. -/
def numBody (s : List Char) : List Char :=
  if s.head? = some '+' then s.tail else s

/-- Model of Rust's `str::parse` for an unsigned integer type with maximum
value `m` (`m = 255` for `u8`, `m = 2^64 - 1` for `usize` on the 64-bit
targets the program is built for): one optional leading `'+'`, then one or
more decimal digits, value at most `m`. -/
def parseUInt (s : List Char) (m : Nat) : Option Nat :=
  if numBody s = [] then none
  else
    match parseDigits (numBody s) 0 with
    | none => none
    | some v => if v ≤ m then some v else none

/-- Model of Rust's `u8::from_str`, used on each dotted component. -/
def parseU8 (s : List Char) : Option Nat :=
  parseUInt s 255

/-- Model of `s.split('.')`: the list of (possibly empty) chunks between
dots.  As in Rust, the result is never empty. -/
def splitDot : List Char → List (List Char)
  | [] => [[]]
  | c :: rest =>
    if c = '.' then [] :: splitDot rest
    else
      match splitDot rest with
      | [] => [[c]]
      | p :: ps => (c :: p) :: ps

/-- Model of `parse_octets` (src/main.rs:13-39): exactly four dot-separated
components, each a valid `u8`.  The Rust code reverses the four bytes and
reads them with `u32::from_ne_bytes`; on the little-endian targets the
program runs on this packs the first component into the most significant
byte, i.e. big-endian packing of the octets in input order. -/
def parse_octets (s : List Char) : Option Nat :=
  match splitDot s with
  | [c1, c2, c3, c4] => do
    let a ← parseU8 c1
    let b ← parseU8 c2
    let c ← parseU8 c3
    let d ← parseU8 c4
    pure (a * 2 ^ 24 + b * 2 ^ 16 + c * 2 ^ 8 + d)
  | _ => none

/-- Model of `IPv4Address::parse` (src/main.rs:103-110): delegates to
`parse_octets`. -/
def IPv4Address.parse (s : List Char) : Option Nat :=
  parse_octets s

/-- Decimal digits of `n`, most significant first, written with explicit
fuel so that it is structural (the fuel `n + 1` always suffices since the
argument is divided by ten on each step). -/
def toDecAux : Nat → Nat → List Char → List Char
  | 0, _, acc => acc
  | fuel + 1, n, acc =>
    if n < 10 then Nat.digitChar n :: acc
    else toDecAux fuel (n / 10) (Nat.digitChar (n % 10) :: acc)

/-- Decimal rendering of a natural number, as produced by Rust's `{}`
formatting of an unsigned integer: no sign, no leading zeros, `"0"` for 0. -/
def toDec (n : Nat) : List Char :=
  toDecAux (n + 1) n []

/-- Model of the `fmt::Display` impl for `IPv4Address` (src/main.rs:113-122):
the four bytes of the value, most significant first, dot-separated. -/
def IPv4Address.fmt (v : Nat) : List Char :=
  toDec ((v >>> 24) &&& 0xff) ++ '.' ::
  toDec ((v >>> 16) &&& 0xff) ++ '.' ::
  toDec ((v >>> 8) &&& 0xff) ++ '.' ::
  toDec (v &&& 0xff)

/-- One step per iteration of the trailing-zero scan in `IPv4Mask::parse`
(src/main.rs:50-59): `while temp_mask & 1 == 0 { counter += 1; temp_mask >>= 1 }`.
The fuel counts loop iterations; `none` means the loop did not exit within
`fuel` iterations.  For the value 0 the loop body leaves the value at 0, so
no amount of fuel makes it exit (proved below). -/
def tzScan : Nat → Nat → Nat → Option Nat
  | 0, _, _ => none
  | fuel + 1, counter, v =>
    if v % 2 = 1 then some counter
    else tzScan fuel (counter + 1) (v / 2)

/-- Possible outcomes of `IPv4Mask::parse`: a normal `Option` result, a
`panic!` (the `Err` arm of the integer branch), or a loop that never
exits (the trailing-zero scan applied to the value 0). -/
inductive MaskParse where
  | diverges
  | panics
  | ok (r : Option Nat)
  deriving DecidableEq, Repr

/-- Model of `IPv4Mask::parse` (src/main.rs:42-79).  In the dotted branch
the scan is run with fuel 32: any nonzero value below `2^32` has at most 31
trailing zeros, so the loop exits within 32 iterations; the only way the
fuel can run out is the value 0, for which the Rust loop runs forever
(`MaskParse.diverges`).  The mask validity check is
`u32::MAX << host_bits != mask`; the scan's counter is at most 31 here, so
the `u32` shift neither panics nor wraps beyond the `% 2^32`. -/
def IPv4Mask.parse (s : List Char) : MaskParse :=
  if '.' ∈ s then
    match parse_octets s with
    | none => MaskParse.ok none
    | some mask =>
      match tzScan 32 0 mask with
      | none => MaskParse.diverges
      | some host_bits =>
        if ((2 ^ 32 - 1) <<< host_bits) % 2 ^ 32 ≠ mask then MaskParse.ok none
        else MaskParse.ok (some (32 - host_bits))
  else
    match parseUInt s (2 ^ 64 - 1) with
    | some x => if x > 32 then MaskParse.ok none else MaskParse.ok (some x)
    | none => MaskParse.panics

/-- Model of `IPv4Mask::netid_mask` (src/main.rs:81-89).  The third branch
models `u32::MAX.checked_shl(32 - n).unwrap_or(u32::MAX)`; for the prefix
lengths `1..=31` reachable from the parser the shift amount `32 - n` is
within range, so the `unwrap_or` arm is dead code, as in the source. -/
def IPv4Mask.netid_mask (n : Nat) : Nat :=
  if n = 0 then 0
  else if n = 32 then 2 ^ 32 - 1
  else if 32 - n < 32 then ((2 ^ 32 - 1) <<< (32 - n)) % 2 ^ 32
  else 2 ^ 32 - 1

/-- One inner `for` pass of `create_summary_route` (src/main.rs:127-133):
does every pair's address agree with the first pair's address on the bit
`1 << (31 - n)`?  (Addresses are below `2^32`, so the `u32` operations need
no wrap.) -/
def agreesOnBit (pairs : List (Nat × Nat)) (first : Nat) (n : Nat) : Bool :=
  pairs.all fun p => p.1 &&& (1 <<< (31 - n)) == first &&& (1 <<< (31 - n))

/-- The candidate-prefix loop of `create_summary_route` (src/main.rs:126-135).
The Rust loop has no exit for `n = 32`: it computes `31 - n`, which
underflows `usize`, so the program panics (debug) or, with the shift amount
wrapped, keeps re-testing bits that already agree and loops forever
(release).  Either way it never returns normally, modelled as the guard
`32 ≤ n → none`.  Fuel 33 covers every reachable iteration count. -/
def summaryScan (pairs : List (Nat × Nat)) (first : Nat) : Nat → Nat → Option Nat
  | 0, _ => none
  | fuel + 1, n =>
    if 32 ≤ n then none
    else if agreesOnBit pairs first n then summaryScan pairs first fuel (n + 1)
    else some n

/-- Model of `create_summary_route` (src/main.rs:124-141): `none` means the
function does not return normally (empty input never reaches a `break`;
bit-identical addresses reach the `n = 32` underflow). -/
def create_summary_route (pairs : List (Nat × Nat)) : Option (Nat × Nat) :=
  match pairs with
  | [] => none
  | (a0, _) :: _ =>
    Option.map (fun n => (a0 &&& IPv4Mask.netid_mask n, n)) (summaryScan pairs a0 33 0)

/-! ### Basic facts about the parsers -/

theorem parseUInt_le (s : List Char) (m v : Nat) (h : parseUInt s m = some v) : v ≤ m := by
  unfold parseUInt at h
  split at h
  · exact absurd h (by simp)
  · split at h
    · exact absurd h (by simp)
    · split at h
      · injection h with h
        omega
      · exact absurd h (by simp)

theorem parse_octets_lt (s : List Char) (v : Nat) (h : parse_octets s = some v) :
    v < 2 ^ 32 := by
  unfold parse_octets at h
  split at h
  · simp only [bind, Option.bind_eq_some, pure, Option.some.injEq] at h
    obtain ⟨a, ha, b, hb, c, hc, d, hd, hv⟩ := h
    have := parseUInt_le _ _ _ ha
    have := parseUInt_le _ _ _ hb
    have := parseUInt_le _ _ _ hc
    have := parseUInt_le _ _ _ hd
    omega
  · exact absurd h (by simp)

/-- C1: the two bit-scanning loops do not, in fact, terminate on every
input.  The trailing-zero scan of `IPv4Mask::parse` never exits when the
parsed mask value is 0 (first conjunct: no iteration bound makes it
return), so parsing `"0.0.0.0"` runs forever; and the candidate-prefix loop
of `create_summary_route` never exits when all addresses are bit-identical:
it reaches `n = 32`, where `31 - n` underflows and the program aborts
instead of returning a summary. -/
theorem scan_and_summary_nontermination :
    (∀ fuel c, tzScan fuel c 0 = none) ∧
    IPv4Mask.parse ['0', '.', '0', '.', '0', '.', '0'] = MaskParse.diverges ∧
    create_summary_route [(0x0A000000, 24), (0x0A000000, 24)] = none := by
  refine ⟨?_, by decide, by decide⟩
  intro fuel
  induction fuel with
  | zero => intro c; rfl
  | succ f ih =>
    intro c
    show (if (0 : Nat) % 2 = 1 then some c else tzScan f (c + 1) (0 / 2)) = none
    rw [if_neg (by omega)]
    exact ih (c + 1)

/-- C2: for the single-element input `[(192.168.1.0, 24)]` the function
does not return the element unchanged — the loop never hits a disagreeing
bit, reaches `n = 32`, and aborts on the `31 - n` underflow, so no summary
is produced at all. -/
theorem summary_single_element_aborts :
    create_summary_route [(0xC0A80100, 24)] = none := by decide

/-- C9: for the input `[(10.0.0.0, 24), (10.0.1.0, 24)]` the summary is
address `10.0.0.0` with prefix length 23, as claimed. -/
theorem summary_two_routes_example :
    create_summary_route [(0x0A000000, 24), (0x0A000100, 24)] = some (0x0A000000, 23) := by
  decide

/-- C5: the dotted round-trip of `netid_mask` holds for every prefix length
from 1 to 32, but fails at `n = 0`: the rendering of `netid_mask 0` is
`"0.0.0.0"`, and parsing that string never terminates (the trailing-zero
scan loops on the value 0), rather than yielding prefix length 0. -/
theorem mask_dotted_roundtrip_fails_at_zero :
    IPv4Address.fmt (IPv4Mask.netid_mask 0) = ['0', '.', '0', '.', '0', '.', '0'] ∧
    IPv4Mask.parse (IPv4Address.fmt (IPv4Mask.netid_mask 0)) = MaskParse.diverges ∧
    ∀ n : Fin 32,
      IPv4Mask.parse (IPv4Address.fmt (IPv4Mask.netid_mask (n.val + 1))) =
        MaskParse.ok (some (n.val + 1)) := by
  refine ⟨by decide, by decide, by decide⟩

/-- C6: for every `n ≤ 32`, `netid_mask n` is the 32-bit value whose top
`n` bits are ones and whose remaining `32 - n` bits are zeros; numerically
it equals `2^32 - 2^(32-n)`, which is 0 at `n = 0` and `0xFFFFFFFF` at
`n = 32`. -/
theorem netid_mask_top_bits :
    ∀ n, n ≤ 32 →
      IPv4Mask.netid_mask n = 2 ^ 32 - 2 ^ (32 - n) ∧
      ∀ i, i < 32 → (Nat.testBit (IPv4Mask.netid_mask n) i = true ↔ 32 - n ≤ i) := by
  decide

theorem netid_mask_top_bits_witness :
    24 ≤ 32 ∧
    (IPv4Mask.netid_mask 24 = 2 ^ 32 - 2 ^ (32 - 24) ∧
      ∀ i, i < 32 → (Nat.testBit (IPv4Mask.netid_mask 24) i = true ↔ 32 - 24 ≤ i)) :=
  ⟨by decide, netid_mask_top_bits 24 (by decide)⟩

/-- C4 counterexample: on the dot-free non-integer input `"abc"`,
`IPv4Mask::parse` does not return `None` — it hits the `panic!` arm of the
integer branch and aborts. -/
theorem mask_parse_nonint_panics_cex :
    IPv4Mask.parse ['a', 'b', 'c'] = MaskParse.panics ∧
    IPv4Mask.parse ['a', 'b', 'c'] ≠ MaskParse.ok none := by
  refine ⟨by decide, by decide⟩

/-! ### The trailing-zero scan on nonzero values -/

theorem tzScan_spec :
    ∀ (fuel v c : Nat), 0 < v → v < 2 ^ fuel →
      ∃ h, h < fuel ∧ tzScan fuel c v = some (c + h) ∧
        v % 2 ^ h = 0 ∧ v / 2 ^ h % 2 = 1 := by
  intro fuel
  induction fuel with
  | zero =>
    intro v c hv hlt
    simp at hlt
    omega
  | succ f ih =>
    intro v c hv hlt
    by_cases hpar : v % 2 = 1
    · refine ⟨0, by omega, ?_, by rw [pow_zero, Nat.mod_one], by simpa using hpar⟩
      show (if v % 2 = 1 then some c else tzScan f (c + 1) (v / 2)) = some (c + 0)
      rw [if_pos hpar]
      rfl
    · have hv2 : 0 < v / 2 := by omega
      have hlt2 : v / 2 < 2 ^ f := by
        have hps : (2 : Nat) ^ (f + 1) = 2 ^ f * 2 := pow_succ 2 f
        omega
      obtain ⟨h, hhf, hscan, hmod, hodd⟩ := ih (v / 2) (c + 1) hv2 hlt2
      refine ⟨h + 1, by omega, ?_, ?_, ?_⟩
      · show (if v % 2 = 1 then some c else tzScan f (c + 1) (v / 2)) = some (c + (h + 1))
        rw [if_neg hpar, hscan]
        exact congrArg some (by omega)
      · obtain ⟨q, hq⟩ := Nat.dvd_of_mod_eq_zero hmod
        have hv2eq : v = 2 * (v / 2) := by omega
        have hvq : v = 2 ^ (h + 1) * q := by
          rw [hv2eq, hq, pow_succ]
          ring
        rw [hvq]
        exact Nat.mul_mod_right _ _
      · have hdd : v / 2 ^ (h + 1) = v / 2 / 2 ^ h := by
          rw [Nat.div_div_eq_div_mul]
          congr 1
          rw [pow_succ]
          ring
        rw [hdd]
        exact hodd

theorem tzScan_pow_mul :
    ∀ (k w c fuel : Nat), w % 2 = 1 → k < fuel →
      tzScan fuel c (2 ^ k * w) = some (c + k) := by
  intro k
  induction k with
  | zero =>
    intro w c fuel hw hf
    obtain ⟨f, rfl⟩ : ∃ f, fuel = f + 1 := ⟨fuel - 1, by omega⟩
    show (if (2 ^ 0 * w) % 2 = 1 then some c else _) = some (c + 0)
    rw [if_pos (by simpa using hw)]
    rfl
  | succ k ih =>
    intro w c fuel hw hf
    obtain ⟨f, rfl⟩ : ∃ f, fuel = f + 1 := ⟨fuel - 1, by omega⟩
    have heq : 2 ^ (k + 1) * w = 2 * (2 ^ k * w) := by
      rw [pow_succ]
      ring
    have hev : (2 ^ (k + 1) * w) % 2 = 0 := by
      rw [heq]
      exact Nat.mul_mod_right 2 _
    have hdiv : 2 ^ (k + 1) * w / 2 = 2 ^ k * w := by
      rw [heq]
      exact Nat.mul_div_cancel_left _ (by omega)
    show (if (2 ^ (k + 1) * w) % 2 = 1 then some c
          else tzScan f (c + 1) (2 ^ (k + 1) * w / 2)) = some (c + (k + 1))
    rw [if_neg (by omega), hdiv, ih w (c + 1) f hw (by omega)]
    exact congrArg some (by omega)

theorem shl_mask_eq (h : Nat) (hh : h < 32) :
    ((2 ^ 32 - 1) <<< h) % 2 ^ 32 = 2 ^ 32 - 2 ^ h := by
  rw [Nat.shiftLeft_eq]
  have h1 : (2 : Nat) ^ h ≤ 2 ^ 31 := Nat.pow_le_pow_right (by omega) (by omega)
  have h2 : (0 : Nat) < 2 ^ h := Nat.two_pow_pos h
  have e32 : (2 : Nat) ^ 32 = 4294967296 := by norm_num
  have e31 : (2 : Nat) ^ 31 = 2147483648 := by norm_num
  rw [e32]
  rw [e31] at h1
  omega

theorem contiguous_decomp (n : Nat) (h1 : 1 ≤ n) (h2 : n ≤ 32) :
    2 ^ 32 - 2 ^ (32 - n) = 2 ^ (32 - n) * (2 ^ n - 1) := by
  have hab : (2 : Nat) ^ (32 - n) * 2 ^ n = 2 ^ 32 := by
    rw [← pow_add]
    congr 1
    omega
  have hdist : (2 : Nat) ^ (32 - n) * (2 ^ n - 1) = 2 ^ (32 - n) * 2 ^ n - 2 ^ (32 - n) := by
    rw [← Nat.pred_eq_sub_one, Nat.mul_pred]
  rw [hdist, hab]

theorem two_pow_sub_one_odd (n : Nat) (h : 1 ≤ n) : (2 ^ n - 1) % 2 = 1 := by
  obtain ⟨m, rfl⟩ : ∃ m, n = m + 1 := ⟨n - 1, by omega⟩
  have hps : (2 : Nat) ^ (m + 1) = 2 ^ m * 2 := pow_succ 2 m
  have hp : (0 : Nat) < 2 ^ m := Nat.two_pow_pos m
  omega

/-- C8: in the dotted branch, a nonzero parsed value that is not of the
form `1^n 0^(32-n)` is rejected (`None`), and every nonzero value of that
contiguous form, `2^32 - 2^(32-n)` with `1 ≤ n ≤ 32`, parses to prefix
length `n`. -/
theorem mask_parse_dotted_contiguity (s : List Char) (v : Nat)
    (hdot : '.' ∈ s) (hpo : parse_octets s = some v) (hv : v ≠ 0) :
    ((∀ n, n ≤ 32 → 1 ≤ n → v ≠ 2 ^ 32 - 2 ^ (32 - n)) →
      IPv4Mask.parse s = MaskParse.ok none) ∧
    (∀ n, n ≤ 32 → 1 ≤ n → v = 2 ^ 32 - 2 ^ (32 - n) →
      IPv4Mask.parse s = MaskParse.ok (some n)) := by
  have hlt := parse_octets_lt s v hpo
  constructor
  · intro hnc
    obtain ⟨h, hh32, hscan, hmod, hodd⟩ :=
      tzScan_spec 32 v 0 (Nat.pos_of_ne_zero hv) hlt
    rw [Nat.zero_add] at hscan
    have hne : ((2 ^ 32 - 1) <<< h) % 2 ^ 32 ≠ v := by
      rw [shl_mask_eq h hh32]
      have h32h : 32 - (32 - h) = h := by omega
      have hcontra := hnc (32 - h) (by omega) (by omega)
      rw [h32h] at hcontra
      exact fun e => hcontra e.symm
    unfold IPv4Mask.parse
    rw [if_pos hdot]
    simp only [hpo, hscan]
    rw [if_pos hne]
  · intro n h32 h1n hveq
    have hodd' : (2 ^ n - 1) % 2 = 1 := two_pow_sub_one_odd n h1n
    have hscan : tzScan 32 0 v = some (32 - n) := by
      have hm := tzScan_pow_mul (32 - n) (2 ^ n - 1) 0 32 hodd' (by omega)
      rw [← contiguous_decomp n h1n h32] at hm
      rw [hveq]
      simpa using hm
    have hpass : ¬ (((2 ^ 32 - 1) <<< (32 - n)) % 2 ^ 32 ≠ v) := by
      rw [shl_mask_eq (32 - n) (by omega), hveq]
      exact fun hne => hne rfl
    unfold IPv4Mask.parse
    rw [if_pos hdot]
    simp only [hpo, hscan]
    rw [if_neg hpass]
    have hnn : 32 - (32 - n) = n := by omega
    rw [hnn]

theorem mask_parse_dotted_contiguity_witness :
    IPv4Mask.parse ['2', '5', '5', '.', '0', '.', '2', '5', '5', '.', '0'] =
      MaskParse.ok none :=
  (mask_parse_dotted_contiguity
      ['2', '5', '5', '.', '0', '.', '2', '5', '5', '.', '0'] 0xFF00FF00
      (by decide) (by decide) (by decide)).1 (by decide)

/-- C10: whenever `IPv4Mask::parse` returns normally with a mask, the
stored prefix length is at most 32, so the `32 - m` shift amount that
`netid_mask` computes for a parser-produced mask is within the `u32` shift
range whenever the non-special branch (`m ≠ 0`, `m ≠ 32`) is taken. -/
theorem mask_parse_prefix_in_range (s : List Char) (m : Nat)
    (h : IPv4Mask.parse s = MaskParse.ok (some m)) :
    m ≤ 32 ∧ (m ≠ 0 → m ≠ 32 → 0 < 32 - m ∧ 32 - m < 32) := by
  have hm : m ≤ 32 := by
    unfold IPv4Mask.parse at h
    split at h
    · split at h
      · simp at h
      · split at h
        · simp at h
        · split at h
          · simp at h
          · injection h with h
            injection h with h
            omega
    · split at h
      · split at h
        · simp at h
        · injection h with h
          injection h with h
          omega
      · simp at h
  exact ⟨hm, fun _ _ => by omega⟩

theorem mask_parse_prefix_in_range_witness :
    24 ≤ 32 ∧ (24 ≠ 0 → 24 ≠ 32 → 0 < 32 - 24 ∧ 32 - 24 < 32) :=
  mask_parse_prefix_in_range ['2', '4'] 24 (by decide)

/-- C4 (amended): on a dot-free input the integer branch never loops; it
returns `None` exactly when the input parses as an integer greater than 32,
and on an input that is not a valid integer it does not return `None` — it
hits the `panic!` arm and aborts. -/
theorem mask_parse_integer_branch (s : List Char) (hdot : '.' ∉ s) :
    IPv4Mask.parse s ≠ MaskParse.diverges ∧
    (IPv4Mask.parse s = MaskParse.panics ↔ parseUInt s (2 ^ 64 - 1) = none) ∧
    (IPv4Mask.parse s = MaskParse.ok none ↔
      ∃ x, parseUInt s (2 ^ 64 - 1) = some x ∧ 32 < x) ∧
    (∀ x, parseUInt s (2 ^ 64 - 1) = some x → x ≤ 32 →
      IPv4Mask.parse s = MaskParse.ok (some x)) := by
  unfold IPv4Mask.parse
  rw [if_neg hdot]
  cases hp : parseUInt s (2 ^ 64 - 1) with
  | none => simp
  | some x =>
    dsimp only
    by_cases hx : x > 32
    · rw [if_pos hx]
      refine ⟨by simp, by simp, ?_, ?_⟩
      · exact iff_of_true rfl ⟨x, rfl, hx⟩
      · intro y hy hy32
        injection hy with hy
        omega
    · rw [if_neg hx]
      refine ⟨by simp, by simp, ?_, ?_⟩
      · constructor
        · intro hcon
          injection hcon with hcon
          exact absurd hcon (by simp)
        · rintro ⟨y, hy, hy32⟩
          injection hy with hy
          omega
      · intro y hy _
        injection hy with hy
        rw [hy]

theorem mask_parse_integer_branch_witness :
    IPv4Mask.parse ['3', '3'] = MaskParse.ok none :=
  ((mask_parse_integer_branch ['3', '3'] (by decide)).2.2.1).mpr
    ⟨33, by decide, by decide⟩

/-! ### Address round-trip -/

theorem parseU8_le (s : List Char) (a : Nat) (h : parseU8 s = some a) : a ≤ 255 :=
  parseUInt_le s 255 a h

theorem pack_bytes (a b c d : Nat)
    (ha : a ≤ 255) (hb : b ≤ 255) (hc : c ≤ 255) (hd : d ≤ 255) :
    ((a * 2 ^ 24 + b * 2 ^ 16 + c * 2 ^ 8 + d) >>> 24) &&& 0xff = a ∧
    ((a * 2 ^ 24 + b * 2 ^ 16 + c * 2 ^ 8 + d) >>> 16) &&& 0xff = b ∧
    ((a * 2 ^ 24 + b * 2 ^ 16 + c * 2 ^ 8 + d) >>> 8) &&& 0xff = c ∧
    (a * 2 ^ 24 + b * 2 ^ 16 + c * 2 ^ 8 + d) &&& 0xff = d := by
  have h255 : (0xff : Nat) = 2 ^ 8 - 1 := by norm_num
  simp only [h255, Nat.and_pow_two_sub_one_eq_mod, Nat.shiftRight_eq_div_pow]
  have e24 : (2 : Nat) ^ 24 = 16777216 := by norm_num
  have e16 : (2 : Nat) ^ 16 = 65536 := by norm_num
  have e8 : (2 : Nat) ^ 8 = 256 := by norm_num
  rw [e24, e16, e8]
  refine ⟨?_, ?_, ?_, ?_⟩ <;> omega

/-- C7: for every string that splits on dots into exactly four components,
each a valid `u8`, `IPv4Address::parse` returns the big-endian packing of
the four octet values, and rendering that value with the `Display` impl
produces the canonical dotted-decimal form (the four octet values in
decimal, most significant first); for an input that is already canonical
the rendering equals the input exactly. -/
theorem address_parse_display_roundtrip
    (s c1 c2 c3 c4 : List Char) (a1 a2 a3 a4 : Nat)
    (hs : splitDot s = [c1, c2, c3, c4])
    (h1 : parseU8 c1 = some a1) (h2 : parseU8 c2 = some a2)
    (h3 : parseU8 c3 = some a3) (h4 : parseU8 c4 = some a4) :
    IPv4Address.parse s = some (a1 * 2 ^ 24 + a2 * 2 ^ 16 + a3 * 2 ^ 8 + a4) ∧
    IPv4Address.fmt (a1 * 2 ^ 24 + a2 * 2 ^ 16 + a3 * 2 ^ 8 + a4) =
      toDec a1 ++ '.' :: toDec a2 ++ '.' :: toDec a3 ++ '.' :: toDec a4 ∧
    (s = toDec a1 ++ '.' :: toDec a2 ++ '.' :: toDec a3 ++ '.' :: toDec a4 →
      IPv4Address.fmt (a1 * 2 ^ 24 + a2 * 2 ^ 16 + a3 * 2 ^ 8 + a4) = s) := by
  obtain ⟨e1, e2, e3, e4⟩ :=
    pack_bytes a1 a2 a3 a4 (parseU8_le _ _ h1) (parseU8_le _ _ h2)
      (parseU8_le _ _ h3) (parseU8_le _ _ h4)
  have hfmt :
      IPv4Address.fmt (a1 * 2 ^ 24 + a2 * 2 ^ 16 + a3 * 2 ^ 8 + a4) =
        toDec a1 ++ '.' :: toDec a2 ++ '.' :: toDec a3 ++ '.' :: toDec a4 := by
    unfold IPv4Address.fmt
    rw [e1, e2, e3, e4]
  refine ⟨?_, hfmt, fun hcan => by rw [hfmt, hcan]⟩
  unfold IPv4Address.parse parse_octets
  rw [hs]
  dsimp only
  rw [h1, h2, h3, h4]
  rfl

theorem address_parse_display_roundtrip_witness :
    IPv4Address.parse ['1', '9', '2', '.', '1', '6', '8', '.', '1', '.', '0'] =
      some (192 * 2 ^ 24 + 168 * 2 ^ 16 + 1 * 2 ^ 8 + 0) ∧
    IPv4Address.fmt (192 * 2 ^ 24 + 168 * 2 ^ 16 + 1 * 2 ^ 8 + 0) =
      toDec 192 ++ '.' :: toDec 168 ++ '.' :: toDec 1 ++ '.' :: toDec 0 ∧
    (['1', '9', '2', '.', '1', '6', '8', '.', '1', '.', '0'] =
        toDec 192 ++ '.' :: toDec 168 ++ '.' :: toDec 1 ++ '.' :: toDec 0 →
      IPv4Address.fmt (192 * 2 ^ 24 + 168 * 2 ^ 16 + 1 * 2 ^ 8 + 0) =
        ['1', '9', '2', '.', '1', '6', '8', '.', '1', '.', '0']) :=
  address_parse_display_roundtrip
    ['1', '9', '2', '.', '1', '6', '8', '.', '1', '.', '0']
    ['1', '9', '2'] ['1', '6', '8'] ['1'] ['0'] 192 168 1 0
    (by decide) (by decide) (by decide) (by decide) (by decide)

/-! ### Soundness of the candidate-prefix loop -/

theorem summaryScan_sound (pairs : List (Nat × Nat)) (first : Nat) :
    ∀ (fuel n0 n : Nat), summaryScan pairs first fuel n0 = some n →
      n0 ≤ n ∧ n < 32 ∧ ∀ k, n0 ≤ k → k < n → agreesOnBit pairs first k = true := by
  intro fuel
  induction fuel with
  | zero =>
    intro n0 n h
    exact absurd h (by simp [summaryScan])
  | succ f ih =>
    intro n0 n h
    unfold summaryScan at h
    by_cases h32 : 32 ≤ n0
    · rw [if_pos h32] at h
      exact absurd h (by simp)
    · rw [if_neg h32] at h
      by_cases hag : agreesOnBit pairs first n0 = true
      · rw [if_pos hag] at h
        obtain ⟨hle, hlt, hall⟩ := ih (n0 + 1) n h
        refine ⟨by omega, hlt, fun k hk1 hk2 => ?_⟩
        rcases Nat.eq_or_lt_of_le hk1 with heq | hlt'
        · rw [← heq]
          exact hag
        · exact hall k (by omega) hk2
      · rw [if_neg hag] at h
        injection h with h
        subst h
        exact ⟨Nat.le_refl _, by omega, fun k hk1 hk2 => absurd hk2 (by omega)⟩

/-- C3 (amended): the summary prefix length is computed from the input
addresses alone.  Whenever `create_summary_route` returns `(a, n)`, every
input address agrees with the first pair's address on each of the top `n`
bits, and `a` is the first address masked by `netid_mask n`.  The claimed
bound "n is at most the minimum input prefix length" does not hold (the
input masks are never consulted); see the counterexample. -/
theorem create_summary_route_prefix_sound
    (a0 m0 : Nat) (rest : List (Nat × Nat)) (a n : Nat)
    (h : create_summary_route ((a0, m0) :: rest) = some (a, n)) :
    n ≤ 32 ∧ a = a0 &&& IPv4Mask.netid_mask n ∧
      ∀ p ∈ (a0, m0) :: rest, ∀ k, k < n →
        p.1 &&& (1 <<< (31 - k)) = a0 &&& (1 <<< (31 - k)) := by
  unfold create_summary_route at h
  rw [Option.map_eq_some'] at h
  obtain ⟨n', hscan, heq⟩ := h
  cases heq
  obtain ⟨-, hlt, hall⟩ := summaryScan_sound ((a0, m0) :: rest) a0 33 0 n hscan
  refine ⟨by omega, rfl, fun p hp k hk => ?_⟩
  have hag := hall k (Nat.zero_le k) hk
  rw [agreesOnBit, List.all_eq_true] at hag
  have hbeq := hag p hp
  simpa using hbeq

/-- C3 counterexample: for the input `[(10.0.0.0, 16), (10.0.1.0, 24)]`,
whose minimum prefix length is 16, the summary prefix length is 23 — the
summary mask is narrower than the narrowest member, contradicting the
claim. -/
theorem summary_narrower_than_member_cex :
    create_summary_route [(0x0A000000, 16), (0x0A000100, 24)] = some (0x0A000000, 23) ∧
    ¬ (23 ≤ min 16 24) := by
  refine ⟨by decide, by decide⟩

theorem create_summary_route_prefix_sound_witness :
    23 ≤ 32 ∧ 0x0A000000 = 0x0A000000 &&& IPv4Mask.netid_mask 23 ∧
      ∀ p ∈ [((0x0A000000 : Nat), (16 : Nat)), (0x0A000100, 24)], ∀ k, k < 23 →
        p.1 &&& (1 <<< (31 - k)) = 0x0A000000 &&& (1 <<< (31 - k)) :=
  create_summary_route_prefix_sound 0x0A000000 16 [(0x0A000100, 24)] 0x0A000000 23
    (by decide)
